import Mathlib

/-!
Shallow embedding of the video-prompt script (src/main.py).

Text is modelled as List Char; Python dicts are modelled as
insertion-ordered association lists where assignment to an existing key
keeps its position and updates the value, and a new key is appended.
The regular-expression scan of parse_document, the blank-line fallback,
the per-item generation loop of generate_video_prompts and the two
result serialisations are translated function by function.  The regex
character classes are modelled over their ASCII content, which covers
every input considered here.
-/

/-- ASCII content of the whitespace classes used by the script
(regex backslash-s and str.split / str.strip with no arguments). -/
def isPySpace (c : Char) : Bool :=
  c = ' ' || c = '\t' || c = '\n' || c = '\r' || c = '\x0b' || c = '\x0c'

/-- Python str.strip(): drop whitespace from both ends. -/
def pyStrip (l : List Char) : List Char :=
  ((l.dropWhile isPySpace).reverse.dropWhile isPySpace).reverse

/-- Helper for Python str.split() with no arguments: accumulate the
current word (reversed) and split on whitespace runs, discarding
empty words. -/
def pySplitWsAux (cur : List Char) : List Char → List (List Char)
  | [] => if cur = [] then [] else [cur.reverse]
  | c :: rest =>
      if isPySpace c then
        if cur = [] then pySplitWsAux [] rest
        else cur.reverse :: pySplitWsAux [] rest
      else pySplitWsAux (c :: cur) rest

/-- Python text.split() with no arguments. -/
def wordsOf (l : List Char) : List (List Char) := pySplitWsAux [] l

/-- Python ' '.join on a list of words. -/
def joinWords : List (List Char) → List Char
  | [] => []
  | [w] => w
  | w :: ws => w ++ ' ' :: joinWords ws

/-- Python ' '.join(text.split()): collapse every whitespace run to a
single space and trim the ends. -/
def collapse (l : List Char) : List Char := joinWords (wordsOf l)

/-- Python dict assignment d[k] = v on an insertion-ordered association
list: an existing key keeps its position and gets the new value, a new
key is appended at the end. -/
def dictInsert (k : Nat) (v : List Char) :
    List (Nat × List Char) → List (Nat × List Char)
  | [] => [(k, v)]
  | (k', v') :: rest =>
      if k' = k then (k, v) :: rest else (k', v') :: dictInsert k v rest

/-- Lookup in the association-list dict model. -/
def dictGet (k : Nat) : List (Nat × List Char) → Option (List Char)
  | [] => none
  | (k', v') :: rest => if k' = k then some v' else dictGet k rest

/-- Lookup with a default value. -/
def dictGetD (k : Nat) (d : List (Nat × List Char)) (dflt : List Char) :
    List Char :=
  (dictGet k d).getD dflt

/-- Build a dict by Python-style assignment of the pairs in order
(later assignments to the same key overwrite earlier ones). -/
def buildDict (ms : List (Nat × List Char)) : List (Nat × List Char) :=
  ms.foldl (fun d p => dictInsert p.1 p.2 d) []

/-- int() on a decimal digit string. -/
def digitsToNat (ds : List Char) : Nat :=
  ds.foldl (fun a c => 10 * a + (c.toNat - '0'.toNat)) 0

/-- The lookahead of the numbering pattern, (?=\n\d+\.\s+): the suffix
starts with a newline, one or more digits, a period and a whitespace
character. -/
def lookaheadNum : List Char → Bool
  | '\n' :: t =>
      match t.drop (t.takeWhile Char.isDigit).length with
      | '.' :: c :: _ => !(t.takeWhile Char.isDigit).isEmpty && isPySpace c
      | _ => false
  | _ => false

/-- The lazy group (.+?) under re.DOTALL: consume at least one character,
then stop at the first position where the lookahead succeeds or at the
end of the text.  Returns (consumed characters, remainder). -/
def lazyContent : List Char → List Char × List Char
  | [] => ([], [])
  | c :: rest =>
      if lookaheadNum rest then ([c], rest)
      else
        let p := lazyContent rest
        (c :: p.1, p.2)

/-- One attempt of the numbering pattern at the head of the text:
greedy digits, a literal period, greedy whitespace (backtracking one
character when taking all of it would leave the lazy group empty), then
the lazy group up to the lookahead or the end of text.  Returns
(paragraph number, raw matched text, remainder after the match). -/
def tryMatch (s : List Char) : Option (Nat × List Char × List Char) :=
  let ds := s.takeWhile Char.isDigit
  if ds.isEmpty then none
  else
    match s.drop ds.length with
    | '.' :: t =>
        let ws := t.takeWhile isPySpace
        if ws.isEmpty then none
        else
          match t.drop ws.length with
          | [] =>
              if 2 ≤ ws.length then
                some (digitsToNat ds, ws.drop (ws.length - 1), [])
              else none
          | c :: rest =>
              let p := lazyContent (c :: rest)
              some (digitsToNat ds, p.1, p.2)
    | _ => none

/-- re.findall scanning: try the pattern at every position from left to
right, resuming right after each successful match.  The fuel bounds the
recursion; the text length plus one always suffices because every step
shortens the text. -/
def findNumberedAux : Nat → List Char → List (Nat × List Char)
  | 0, _ => []
  | _, [] => []
  | fuel + 1, c :: rest =>
      match tryMatch (c :: rest) with
      | some (n, txt, rem) => (n, txt) :: findNumberedAux fuel rem
      | none => findNumberedAux fuel rest

/-- All matches of the numbering pattern in the text, in document
order, as (number, raw matched text) pairs. -/
def findNumbered (s : List Char) : List (Nat × List Char) :=
  findNumberedAux (s.length + 1) s

/-- Python content.split on the two-character blank-line separator. -/
def splitOn2NL : List Char → List (List Char)
  | [] => [[]]
  | '\n' :: '\n' :: rest => [] :: splitOn2NL rest
  | c :: rest =>
      match splitOn2NL rest with
      | [] => [[c]]
      | b :: bs => (c :: b) :: bs

/-- The fallback normalisation ' '.join(part.split()).strip(). -/
def normalizeBlock (p : List Char) : List Char := pyStrip (collapse p)

/-- The plain-text fallback loop of parse_document: sequential keys from
para_num, accepting only blocks whose normalised text is nonempty and
longer than 20 characters, and incrementing the key only on
acceptance. -/
def fallbackPlainAux :
    List (List Char) → List (Nat × List Char) → Nat → List (Nat × List Char)
  | [], d, _ => d
  | p :: rest, d, n =>
      let t := normalizeBlock p
      if t ≠ [] ∧ 20 < t.length then
        fallbackPlainAux rest (dictInsert n t d) (n + 1)
      else fallbackPlainAux rest d n

/-- parse_document on a plain-text file with the given content: the
numbered scan when it has matches, otherwise the blank-line fallback. -/
def parse_document_text (content : List Char) : List (Nat × List Char) :=
  match findNumbered content with
  | [] => fallbackPlainAux (splitOn2NL content) [] 1
  | ms => buildDict (ms.map (fun m => (m.1, collapse m.2)))

/-- The newline join of the docx paragraph texts. -/
def joinNL : List (List Char) → List Char
  | [] => []
  | [p] => p
  | p :: ps => p ++ '\n' :: joinNL ps

/-- The rich-text fallback loop of parse_document: paragraph.text.strip()
for each block-level paragraph, threshold 20, sequential keys. -/
def fallbackDocxAux :
    List (List Char) → List (Nat × List Char) → Nat → List (Nat × List Char)
  | [], d, _ => d
  | p :: rest, d, n =>
      let t := pyStrip p
      if t ≠ [] ∧ 20 < t.length then
        fallbackDocxAux rest (dictInsert n t d) (n + 1)
      else fallbackDocxAux rest d n

/-- parse_document on a rich-text (.docx) file given its block-level
paragraph texts in document order. -/
def parse_document_docx (paras : List (List Char)) : List (Nat × List Char) :=
  match findNumbered (joinNL paras) with
  | [] => fallbackDocxAux paras [] 1
  | ms => buildDict (ms.map (fun m => (m.1, collapse m.2)))

/-- Outcome of one remote completion call for an item: on success the
response text stripped, on failure the marker string built from the repr
text of the raised exception. -/
def itemResult : Except (List Char) (List Char) → List Char
  | Except.ok p => pyStrip p
  | Except.error e => ("ERROR: ").toList ++ e

/-- The truncation items[:max_paragraphs], guarded by Python truthiness:
both None and 0 leave the item list whole. -/
def gvpItems (paragraphs : List (Nat × List Char)) :
    Option Nat → List (Nat × List Char)
  | none => paragraphs
  | some m => if m = 0 then paragraphs else paragraphs.take m

/-- The per-item loop of generate_video_prompts: each item's key is
assigned its call outcome (a failure becoming a marker string in place
of the prompt) and the loop always continues with the next item. -/
def gvpAux (oracle : Nat → List Char → Except (List Char) (List Char)) :
    List (Nat × List Char) → List (Nat × List Char) → List (Nat × List Char)
  | [], results => results
  | (num, text) :: rest, results =>
      gvpAux oracle rest (dictInsert num (itemResult (oracle num text)) results)

/-- generate_video_prompts: truncate per the optional cap, then process
the items in order, one remote call each, collecting the outcomes. -/
def generate_video_prompts (paragraphs : List (Nat × List Char))
    (oracle : Nat → List Char → Except (List Char) (List Char))
    (max_paragraphs : Option Nat) : List (Nat × List Char) :=
  gvpAux oracle (gvpItems paragraphs max_paragraphs) []

/-- Python sorted(results.keys()). -/
def sortedKeys (results : List (Nat × List Char)) : List Nat :=
  List.insertionSort (· ≤ ·) (results.map Prod.fst)

/-- The 80-character banner separator line. -/
def eqBar : List Char := List.replicate 80 '='

/-- The 80-character block separator line. -/
def dashBar : List Char := List.replicate 80 '-'

/-- The banner written at the top of the text report, carrying the
generation timestamp. -/
def txtBanner (ts : List Char) : List Char :=
  eqBar ++ ("\n").toList ++ ("VIDEO PROMPTS GENERATED\n").toList ++
  ("Date: ").toList ++ ts ++ ("\n").toList ++ eqBar ++ ("\n\n").toList

/-- One labelled block of the text report for one key. -/
def txtBlock (results : List (Nat × List Char)) (num : Nat) : List Char :=
  ("PARAGRAPH ").toList ++ (Nat.repr num).toList ++ ("\n").toList ++
  dashBar ++ ("\n").toList ++ dictGetD num results [] ++ ("\n\n").toList

/-- save_results_txt: the full content written to the report file (the
open in mode w makes the file exactly this content). -/
def save_results_txt (results : List (Nat × List Char)) (ts : List Char) :
    List Char :=
  txtBanner ts ++ List.flatten ((sortedKeys results).map (txtBlock results))

/-- Field quoting of the csv excel dialect: quote when the field holds a
comma, a quote, a CR or an LF, doubling inner quotes. -/
def csvQuote (f : List Char) : List Char :=
  if f.any (fun c => c = ',' || c = '"' || c = '\n' || c = '\r') then
    '"' :: f.foldr (fun c acc => if c = '"' then '"' :: '"' :: acc else c :: acc) ['"']
  else f

/-- csv.writer writerow: comma-joined quoted fields plus CRLF. -/
def csvWriteRow (fields : List (List Char)) : List Char :=
  List.intercalate [','] (fields.map csvQuote) ++ ('\r' :: '\n' :: [])

/-- The csv header row. -/
def csvHeader : List Char :=
  csvWriteRow [("Paragraph Number").toList, ("Video Prompt").toList]

/-- One csv data row for one key. -/
def csvRow (results : List (Nat × List Char)) (num : Nat) : List Char :=
  csvWriteRow [(Nat.repr num).toList, dictGetD num results []]

/-- save_results_csv: the full content written to the csv file (the
open in mode w makes the file exactly this content). -/
def save_results_csv (results : List (Nat × List Char)) : List Char :=
  csvHeader ++ List.flatten ((sortedKeys results).map (csvRow results))

/-- The observable file operations of one run of main(). -/
inductive MainEffect
  | readInput
  | writeTxt
  | writeCsv
deriving DecidableEq

/-- How one run of main() ends. -/
inductive MainOutcome
  /-- The instructional message about the missing API key was printed
  and the run returned. -/
  | missingKey
  /-- The input file could not be loaded and the run returned. -/
  | loadFailed
  /-- Both output files were written with the given contents. -/
  | completed (txt csv : List Char)
deriving DecidableEq

/-- Control flow of main(): an empty API key halts with the
instructional message before the input is read; a load failure halts
after the read and before any write; otherwise prompts are generated
and both output files are written.  The second component records the
file operations performed, in order. -/
def main_run (apiKey : List Char) (load : Except Unit (List (Nat × List Char)))
    (oracle : Nat → List Char → Except (List Char) (List Char))
    (maxP : Option Nat) (ts : List Char) : MainOutcome × List MainEffect :=
  if apiKey.isEmpty then (MainOutcome.missingKey, [])
  else
    match load with
    | Except.error _ => (MainOutcome.loadFailed, [MainEffect.readInput])
    | Except.ok paragraphs =>
        let results := generate_video_prompts paragraphs oracle maxP
        (MainOutcome.completed (save_results_txt results ts)
          (save_results_csv results),
         [MainEffect.readInput, MainEffect.writeTxt, MainEffect.writeCsv])

/-- Following the spec's words for the plain-text fallback: split on
blank-line boundaries, collapse and trim each block, keep exactly the
blocks longer than 20 characters, and key them sequentially starting at
1 in document order. -/
def specPlainFallback (content : List Char) : List (Nat × List Char) :=
  List.enumFrom 1
    (((splitOn2NL content).map normalizeBlock).filter (fun t => 20 < t.length))

/-! ### Association-list dict lemmas -/

theorem dictGet_dictInsert_self (k : Nat) (v : List Char) :
    ∀ d : List (Nat × List Char), dictGet k (dictInsert k v d) = some v := by
  intro d
  induction d with
  | nil => simp [dictInsert, dictGet]
  | cons hd tl ih =>
      obtain ⟨k', v'⟩ := hd
      by_cases h : k' = k
      · simp [dictInsert, dictGet, h]
      · simp [dictInsert, dictGet, h, ih]

theorem dictInsert_fresh (k : Nat) (v : List Char) :
    ∀ d : List (Nat × List Char), k ∉ d.map Prod.fst →
      dictInsert k v d = d ++ [(k, v)] := by
  intro d
  induction d with
  | nil => intro _; rfl
  | cons hd tl ih =>
      intro h
      obtain ⟨k', v'⟩ := hd
      simp only [List.map_cons, List.mem_cons, not_or] at h
      have hne : ¬ k' = k := fun hk => h.1 hk.symm
      simp [dictInsert, hne, ih h.2]

theorem mem_dictInsert {x : Nat × List Char} (k : Nat) (v : List Char) :
    ∀ d : List (Nat × List Char), x ∈ dictInsert k v d →
      x = (k, v) ∨ x ∈ d := by
  intro d
  induction d with
  | nil => intro h; simp [dictInsert] at h; exact Or.inl h
  | cons hd tl ih =>
      obtain ⟨k', v'⟩ := hd
      intro h
      by_cases hk : k' = k
      · simp only [dictInsert, if_pos hk] at h
        rcases List.mem_cons.mp h with h | h
        · exact Or.inl h
        · exact Or.inr (List.mem_cons_of_mem _ h)
      · simp only [dictInsert, if_neg hk] at h
        rcases List.mem_cons.mp h with h | h
        · exact Or.inr (List.mem_cons.mpr (Or.inl h))
        · rcases ih h with h | h
          · exact Or.inl h
          · exact Or.inr (List.mem_cons_of_mem _ h)

theorem dictInsert_length_le (k : Nat) (v : List Char) :
    ∀ d : List (Nat × List Char), (dictInsert k v d).length ≤ d.length + 1 := by
  intro d
  induction d with
  | nil => simp [dictInsert]
  | cons hd tl ih =>
      obtain ⟨k', v'⟩ := hd
      by_cases h : k' = k
      · simp [dictInsert, h]
      · simpa [dictInsert, h] using Nat.succ_le_succ ih

theorem mem_foldl_dictInsert {x : Nat × List Char} :
    ∀ (ms : List (Nat × List Char)) (d : List (Nat × List Char)),
      x ∈ ms.foldl (fun d p => dictInsert p.1 p.2 d) d → x ∈ d ∨ x ∈ ms := by
  intro ms
  induction ms with
  | nil => intro d h; exact Or.inl h
  | cons m rest ih =>
      intro d h
      rw [List.foldl_cons] at h
      rcases ih (dictInsert m.1 m.2 d) h with h' | h'
      · rcases mem_dictInsert m.1 m.2 d h' with h'' | h''
        · exact Or.inr (List.mem_cons.mpr (Or.inl (by rw [h''])))
        · exact Or.inl h''
      · exact Or.inr (List.mem_cons_of_mem _ h')

theorem mem_buildDict {x : Nat × List Char} (ms : List (Nat × List Char)) :
    x ∈ buildDict ms → x ∈ ms := by
  intro h
  rcases mem_foldl_dictInsert ms [] h with h' | h'
  · cases h'
  · exact h'

theorem buildDict_append_single (ms : List (Nat × List Char)) (k : Nat)
    (v : List Char) : buildDict (ms ++ [(k, v)]) = dictInsert k v (buildDict ms) := by
  simp [buildDict, List.foldl_append]

/-! ### Whitespace-collapse lemmas -/

theorem pySplitWsAux_nil (cur : List Char) :
    pySplitWsAux cur [] = if cur = [] then [] else [cur.reverse] := rfl

theorem pySplitWsAux_cons (cur : List Char) (a : Char) (rest : List Char) :
    pySplitWsAux cur (a :: rest) =
      if isPySpace a then
        if cur = [] then pySplitWsAux [] rest
        else cur.reverse :: pySplitWsAux [] rest
      else pySplitWsAux (a :: cur) rest := rfl

theorem pySplitWsAux_sound :
    ∀ (s cur : List Char), (∀ c ∈ cur, isPySpace c = false) →
      ∀ w ∈ pySplitWsAux cur s, w ≠ [] ∧ ∀ c ∈ w, isPySpace c = false := by
  intro s
  induction s with
  | nil =>
      intro cur hcur w hw
      rw [pySplitWsAux_nil] at hw
      by_cases hc : cur = []
      · rw [if_pos hc] at hw
        cases hw
      · rw [if_neg hc] at hw
        rcases List.mem_singleton.mp hw with rfl
        refine ⟨by simpa using hc, ?_⟩
        intro c hc'
        exact hcur c (List.mem_reverse.mp hc')
  | cons a rest ih =>
      intro cur hcur w hw
      rw [pySplitWsAux_cons] at hw
      by_cases ha : isPySpace a = true
      · rw [if_pos ha] at hw
        by_cases hc : cur = []
        · rw [if_pos hc] at hw
          exact ih [] (by intro c hc'; cases hc') w hw
        · rw [if_neg hc] at hw
          rcases List.mem_cons.mp hw with rfl | hw
          · refine ⟨by simpa using hc, ?_⟩
            intro c hc'
            exact hcur c (List.mem_reverse.mp hc')
          · exact ih [] (by intro c hc'; cases hc') w hw
      · rw [if_neg ha] at hw
        refine ih (a :: cur) ?_ w hw
        intro c hc'
        rcases List.mem_cons.mp hc' with rfl | hc'
        · simpa using ha
        · exact hcur c hc'

theorem pySplitWsAux_word_prefix :
    ∀ (w cur rest : List Char), (∀ c ∈ w, isPySpace c = false) →
      pySplitWsAux cur (w ++ rest) = pySplitWsAux (w.reverse ++ cur) rest := by
  intro w
  induction w with
  | nil => intro cur rest _; simp
  | cons a w' ih =>
      intro cur rest h
      have ha : isPySpace a = false := h a (List.mem_cons_self a w')
      have h' : ∀ c ∈ w', isPySpace c = false :=
        fun c hc => h c (List.mem_cons_of_mem _ hc)
      rw [List.cons_append, pySplitWsAux_cons, if_neg (by simp [ha]),
        ih (a :: cur) rest h', List.reverse_cons, List.append_assoc,
        List.singleton_append]

theorem wordsOf_joinWords :
    ∀ ws : List (List Char),
      (∀ w ∈ ws, w ≠ [] ∧ ∀ c ∈ w, isPySpace c = false) →
      wordsOf (joinWords ws) = ws := by
  intro ws
  induction ws with
  | nil => intro _; rfl
  | cons w tail ih =>
      intro h
      have hw := h w (List.mem_cons_self w tail)
      have htail : ∀ w' ∈ tail, w' ≠ [] ∧ ∀ c ∈ w', isPySpace c = false :=
        fun w' hw' => h w' (List.mem_cons_of_mem _ hw')
      have hrev : w.reverse ≠ [] := by simp [hw.1]
      cases tail with
      | nil =>
          show pySplitWsAux [] (joinWords [w]) = [w]
          have hJ : joinWords [w] = w ++ [] := by simp [joinWords]
          rw [hJ, pySplitWsAux_word_prefix w [] [] hw.2, List.append_nil,
            pySplitWsAux_nil, if_neg hrev, List.reverse_reverse]
      | cons w' tail' =>
          show pySplitWsAux [] (joinWords (w :: w' :: tail')) = w :: w' :: tail'
          have hJ : joinWords (w :: w' :: tail') =
              w ++ ' ' :: joinWords (w' :: tail') := rfl
          rw [hJ, pySplitWsAux_word_prefix w [] _ hw.2, List.append_nil,
            pySplitWsAux_cons, if_pos (show isPySpace ' ' = true from rfl),
            if_neg hrev, List.reverse_reverse]
          have ih' : pySplitWsAux [] (joinWords (w' :: tail')) = w' :: tail' := ih htail
          rw [ih']

theorem wordsOf_sound (s : List Char) :
    ∀ w ∈ wordsOf s, w ≠ [] ∧ ∀ c ∈ w, isPySpace c = false :=
  pySplitWsAux_sound s [] (by intro c hc; cases hc)

theorem collapse_collapse (s : List Char) : collapse (collapse s) = collapse s := by
  show joinWords (wordsOf (joinWords (wordsOf s))) = joinWords (wordsOf s)
  rw [wordsOf_joinWords (wordsOf s) (wordsOf_sound s)]

theorem mem_of_head?_eq {l : List Char} {c : Char} (h : l.head? = some c) :
    c ∈ l := by
  cases l with
  | nil => cases h
  | cons a t =>
      cases h
      exact List.mem_cons_self _ _

theorem mem_of_getLast?_eq :
    ∀ {l : List Char} {c : Char}, l.getLast? = some c → c ∈ l := by
  intro l
  induction l with
  | nil => intro c h; cases h
  | cons a t ih =>
      intro c h
      cases t with
      | nil =>
          simp [List.getLast?] at h
          simp [h]
      | cons b t' =>
          rw [List.getLast?_cons_cons] at h
          exact List.mem_cons_of_mem _ (ih h)

theorem getLast?_append_right_ne :
    ∀ (x y : List Char), y ≠ [] → (x ++ y).getLast? = y.getLast? := by
  intro x
  induction x with
  | nil => intro y _; rfl
  | cons a x' ih =>
      intro y hy
      have hne : x' ++ y ≠ [] := fun hh => hy (List.append_eq_nil.mp hh).2
      obtain ⟨b, t, hbt⟩ := List.exists_cons_of_ne_nil hne
      rw [List.cons_append, hbt, List.getLast?_cons_cons, ← hbt, ih y hy]

theorem pyStrip_fix (l : List Char)
    (h1 : ∀ c, l.head? = some c → isPySpace c = false)
    (h2 : ∀ c, l.getLast? = some c → isPySpace c = false) :
    pyStrip l = l := by
  cases l with
  | nil => rfl
  | cons a t =>
      have ha : isPySpace a = false := h1 a rfl
      have hdrop : (a :: t).dropWhile isPySpace = a :: t := by
        rw [List.dropWhile_cons, if_neg (by simp [ha])]
      show (((a :: t).dropWhile isPySpace).reverse.dropWhile isPySpace).reverse = a :: t
      rw [hdrop]
      cases hrev : (a :: t).reverse with
      | nil => exact absurd hrev (by simp)
      | cons d r =>
          have hd : (a :: t).getLast? = some d := by
            rw [← List.head?_reverse, hrev]
            rfl
          have hdns : isPySpace d = false := h2 d hd
          rw [List.dropWhile_cons, if_neg (by simp [hdns]), ← hrev,
            List.reverse_reverse]

theorem joinWords_ends (ws : List (List Char))
    (h : ∀ w ∈ ws, w ≠ [] ∧ ∀ c ∈ w, isPySpace c = false) :
    (∀ c, (joinWords ws).head? = some c → isPySpace c = false) ∧
    (∀ c, (joinWords ws).getLast? = some c → isPySpace c = false) := by
  induction ws with
  | nil => exact ⟨fun c hc => (nomatch hc), fun c hc => (nomatch hc)⟩
  | cons w tail ih =>
      have hw := h w (List.mem_cons_self w tail)
      have htail : ∀ w' ∈ tail, w' ≠ [] ∧ ∀ c ∈ w', isPySpace c = false :=
        fun w' hw' => h w' (List.mem_cons_of_mem _ hw')
      obtain ⟨a, w0, rfl⟩ := List.exists_cons_of_ne_nil hw.1
      cases tail with
      | nil =>
          constructor
          · intro c hc
            have : c = a := by cases hc; rfl
            subst this
            exact hw.2 c (List.mem_cons_self _ _)
          · intro c hc
            exact hw.2 c (mem_of_getLast?_eq hc)
      | cons w' tail' =>
          have hJ : joinWords ((a :: w0) :: w' :: tail') =
              (a :: w0) ++ ' ' :: joinWords (w' :: tail') := rfl
          have hJne : joinWords (w' :: tail') ≠ [] := by
            have hw' := htail w' (List.mem_cons_self w' tail')
            obtain ⟨b, w1, rfl⟩ := List.exists_cons_of_ne_nil hw'.1
            cases tail' with
            | nil => simp [joinWords]
            | cons w'' tail'' => simp [joinWords]
          constructor
          · intro c hc
            rw [hJ] at hc
            have : c = a := by cases hc; rfl
            subst this
            exact hw.2 c (List.mem_cons_self _ _)
          · intro c hc
            rw [hJ, getLast?_append_right_ne _ _ (by simp)] at hc
            obtain ⟨b, J0, hJ0⟩ := List.exists_cons_of_ne_nil hJne
            rw [hJ0, List.getLast?_cons_cons, ← hJ0] at hc
            exact (ih htail).2 c hc

theorem pyStrip_collapse (s : List Char) : pyStrip (collapse s) = collapse s := by
  have h := joinWords_ends (wordsOf s) (wordsOf_sound s)
  show pyStrip (joinWords (wordsOf s)) = joinWords (wordsOf s)
  exact pyStrip_fix _ h.1 h.2

theorem normalizeBlock_eq_collapse (p : List Char) :
    normalizeBlock p = collapse p := by
  show pyStrip (collapse p) = collapse p
  exact pyStrip_collapse p

/-! ### Fallback-loop lemmas -/

theorem fallbackPlainAux_step_pos (p : List Char) (rest : List (List Char))
    (d : List (Nat × List Char)) (n : Nat)
    (h : normalizeBlock p ≠ [] ∧ 20 < (normalizeBlock p).length) :
    fallbackPlainAux (p :: rest) d n =
      fallbackPlainAux rest (dictInsert n (normalizeBlock p) d) (n + 1) := by
  simp only [fallbackPlainAux]
  rw [if_pos h]

theorem fallbackPlainAux_step_neg (p : List Char) (rest : List (List Char))
    (d : List (Nat × List Char)) (n : Nat)
    (h : ¬ (normalizeBlock p ≠ [] ∧ 20 < (normalizeBlock p).length)) :
    fallbackPlainAux (p :: rest) d n = fallbackPlainAux rest d n := by
  simp only [fallbackPlainAux]
  rw [if_neg h]

theorem fallbackPlainAux_eq :
    ∀ (parts : List (List Char)) (d : List (Nat × List Char)) (n : Nat),
      (∀ q ∈ d, q.1 < n) →
      fallbackPlainAux parts d n =
        d ++ List.enumFrom n
          ((parts.map normalizeBlock).filter (fun t => 20 < t.length)) := by
  intro parts
  induction parts with
  | nil => intro d n _; simp [fallbackPlainAux]
  | cons p rest ih =>
      intro d n hd
      by_cases h20 : 20 < (normalizeBlock p).length
      · have hne : normalizeBlock p ≠ [] := by
          intro h0
          rw [h0] at h20
          simp at h20
        have hfresh : n ∉ d.map Prod.fst := by
          intro hmem
          obtain ⟨q, hq, hq1⟩ := List.mem_map.mp hmem
          exact absurd (hq1 ▸ hd q hq) (Nat.lt_irrefl n)
        rw [fallbackPlainAux_step_pos p rest d n ⟨hne, h20⟩,
          dictInsert_fresh n (normalizeBlock p) d hfresh]
        have hbound : ∀ q ∈ d ++ [(n, normalizeBlock p)], q.1 < n + 1 := by
          intro q hq
          rcases List.mem_append.mp hq with hq | hq
          · exact Nat.lt_succ_of_lt (hd q hq)
          · rcases List.mem_singleton.mp hq with rfl
            exact Nat.lt_succ_self n
        rw [ih (d ++ [(n, normalizeBlock p)]) (n + 1) hbound,
          List.map_cons, List.filter_cons_of_pos (by simpa using h20),
          List.append_assoc, List.singleton_append]
        rfl
      · rw [fallbackPlainAux_step_neg p rest d n (fun hc => h20 hc.2),
          ih d n hd, List.map_cons, List.filter_cons_of_neg (by simpa using h20)]

theorem mem_fallbackPlainAux {x : Nat × List Char} :
    ∀ (parts : List (List Char)) (d : List (Nat × List Char)) (n : Nat),
      x ∈ fallbackPlainAux parts d n →
      x ∈ d ∨ ∃ p ∈ parts, x.2 = normalizeBlock p ∧ 20 < x.2.length := by
  intro parts
  induction parts with
  | nil => intro d n h; exact Or.inl h
  | cons p rest ih =>
      intro d n h
      by_cases h20 : normalizeBlock p ≠ [] ∧ 20 < (normalizeBlock p).length
      · rw [fallbackPlainAux_step_pos p rest d n h20] at h
        rcases ih _ _ h with h' | ⟨q, hq, hx⟩
        · rcases mem_dictInsert _ _ _ h' with h'' | h''
          · refine Or.inr ⟨p, List.mem_cons_self p rest, ?_, ?_⟩
            · rw [h'']
            · rw [h'']
              exact h20.2
          · exact Or.inl h''
        · exact Or.inr ⟨q, List.mem_cons_of_mem _ hq, hx⟩
      · rw [fallbackPlainAux_step_neg p rest d n h20] at h
        rcases ih _ _ h with h' | ⟨q, hq, hx⟩
        · exact Or.inl h'
        · exact Or.inr ⟨q, List.mem_cons_of_mem _ hq, hx⟩

theorem fallbackDocxAux_step_pos (p : List Char) (rest : List (List Char))
    (d : List (Nat × List Char)) (n : Nat)
    (h : pyStrip p ≠ [] ∧ 20 < (pyStrip p).length) :
    fallbackDocxAux (p :: rest) d n =
      fallbackDocxAux rest (dictInsert n (pyStrip p) d) (n + 1) := by
  simp only [fallbackDocxAux]
  rw [if_pos h]

theorem fallbackDocxAux_step_neg (p : List Char) (rest : List (List Char))
    (d : List (Nat × List Char)) (n : Nat)
    (h : ¬ (pyStrip p ≠ [] ∧ 20 < (pyStrip p).length)) :
    fallbackDocxAux (p :: rest) d n = fallbackDocxAux rest d n := by
  simp only [fallbackDocxAux]
  rw [if_neg h]

theorem mem_fallbackDocxAux {x : Nat × List Char} :
    ∀ (paras : List (List Char)) (d : List (Nat × List Char)) (n : Nat),
      x ∈ fallbackDocxAux paras d n →
      x ∈ d ∨ ∃ p ∈ paras, x.2 = pyStrip p ∧ 20 < x.2.length := by
  intro paras
  induction paras with
  | nil => intro d n h; exact Or.inl h
  | cons p rest ih =>
      intro d n h
      by_cases h20 : pyStrip p ≠ [] ∧ 20 < (pyStrip p).length
      · rw [fallbackDocxAux_step_pos p rest d n h20] at h
        rcases ih _ _ h with h' | ⟨q, hq, hx⟩
        · rcases mem_dictInsert _ _ _ h' with h'' | h''
          · refine Or.inr ⟨p, List.mem_cons_self p rest, ?_, ?_⟩
            · rw [h'']
            · rw [h'']
              exact h20.2
          · exact Or.inl h''
        · exact Or.inr ⟨q, List.mem_cons_of_mem _ hq, hx⟩
      · rw [fallbackDocxAux_step_neg p rest d n h20] at h
        rcases ih _ _ h with h' | ⟨q, hq, hx⟩
        · exact Or.inl h'
        · exact Or.inr ⟨q, List.mem_cons_of_mem _ hq, hx⟩

/-! ### Generation-loop lemmas -/

theorem gvpAux_eq_append (oracle : Nat → List Char → Except (List Char) (List Char)) :
    ∀ (items : List (Nat × List Char)) (d : List (Nat × List Char)),
      (items.map Prod.fst).Nodup →
      (∀ q ∈ items, q.1 ∉ d.map Prod.fst) →
      gvpAux oracle items d =
        d ++ items.map (fun q => (q.1, itemResult (oracle q.1 q.2))) := by
  intro items
  induction items with
  | nil => intro d _ _; simp [gvpAux]
  | cons q rest ih =>
      intro d h1 h2
      obtain ⟨num, text⟩ := q
      rw [List.map_cons, List.nodup_cons] at h1
      have hstep : gvpAux oracle ((num, text) :: rest) d =
          gvpAux oracle rest (dictInsert num (itemResult (oracle num text)) d) := rfl
      rw [hstep,
        dictInsert_fresh num _ d (h2 (num, text) (List.mem_cons_self _ _)),
        ih _ h1.2 ?_, List.map_cons, List.append_assoc, List.singleton_append]
      intro q' hq'
      rw [List.map_append, List.mem_append]
      rintro (hmem | hmem)
      · exact h2 q' (List.mem_cons_of_mem _ hq') hmem
      · have hq1 : q'.1 = num := by simpa using hmem
        have hmem2 : q'.1 ∈ rest.map Prod.fst := List.mem_map_of_mem Prod.fst hq'
        rw [hq1] at hmem2
        exact h1.1 hmem2

theorem gvpAux_length_le (oracle : Nat → List Char → Except (List Char) (List Char)) :
    ∀ (items : List (Nat × List Char)) (d : List (Nat × List Char)),
      (gvpAux oracle items d).length ≤ d.length + items.length := by
  intro items
  induction items with
  | nil => intro d; simp [gvpAux]
  | cons q rest ih =>
      intro d
      obtain ⟨num, text⟩ := q
      have hstep : gvpAux oracle ((num, text) :: rest) d =
          gvpAux oracle rest (dictInsert num (itemResult (oracle num text)) d) := rfl
      rw [hstep]
      have h1 := ih (dictInsert num (itemResult (oracle num text)) d)
      have h2 := dictInsert_length_le num (itemResult (oracle num text)) d
      calc (gvpAux oracle rest (dictInsert num (itemResult (oracle num text)) d)).length
      _ ≤ (dictInsert num (itemResult (oracle num text)) d).length + rest.length := h1
      _ ≤ (d.length + 1) + rest.length := Nat.add_le_add_right h2 _
      _ = d.length + (rest.length + 1) := by omega
      _ = d.length + ((num, text) :: rest).length := by simp

theorem dictGet_map_items (g : Nat → List Char → List Char) :
    ∀ (items : List (Nat × List Char)) (num : Nat) (text : List Char),
      (items.map Prod.fst).Nodup → (num, text) ∈ items →
      dictGet num (items.map (fun q => (q.1, g q.1 q.2))) = some (g num text) := by
  intro items
  induction items with
  | nil => intro num text _ hmem; cases hmem
  | cons q rest ih =>
      intro num text h1 hmem
      obtain ⟨k0, t0⟩ := q
      rw [List.map_cons, List.nodup_cons] at h1
      by_cases heq : k0 = num
      · show (if k0 = num then some (g k0 t0)
            else dictGet num (rest.map (fun q => (q.1, g q.1 q.2)))) = some (g num text)
        rw [if_pos heq]
        have hpair : (num, text) = (k0, t0) := by
          rcases List.mem_cons.mp hmem with h | h
          · exact h
          · have hnum : num ∈ rest.map Prod.fst := List.mem_map_of_mem Prod.fst h
            rw [← heq] at hnum
            exact absurd hnum h1.1
        injection hpair with he1 he2
        rw [heq, he2]
      · have hmem' : (num, text) ∈ rest := by
          rcases List.mem_cons.mp hmem with h | h
          · injection h with he1 he2
            exact absurd he1.symm heq
          · exact h
        show (if k0 = num then some (g k0 t0)
            else dictGet num (rest.map (fun q => (q.1, g q.1 q.2)))) = some (g num text)
        rw [if_neg heq]
        exact ih num text h1.2 hmem'

/-! ### Claim theorems -/

set_option maxRecDepth 4000

/-- Claim C1: on input where the numbering pattern matches, parse_document
builds exactly the dict mapping each match's leading integer to its
whitespace-collapsed text; in particular the well-formed input
"1. A\n2. B\n3. C" yields the mapping 1 to "A", 2 to "B", 3 to "C". -/
theorem c1_numbered_scan_mapping :
    (∀ content : List Char, findNumbered content ≠ [] →
      parse_document_text content =
        buildDict ((findNumbered content).map (fun m => (m.1, collapse m.2)))) ∧
    parse_document_text (("1. A\n2. B\n3. C").toList) =
      [(1, ("A").toList), (2, ("B").toList), (3, ("C").toList)] := by
  constructor
  · intro content h
    cases hm : findNumbered content with
    | nil => exact absurd hm h
    | cons m ms =>
        unfold parse_document_text
        rw [hm]
  · decide

/-- Witness for C1 at the concrete input "1. A". -/
theorem c1_numbered_scan_mapping_witness :
    findNumbered (("1. A").toList) ≠ [] ∧
    parse_document_text (("1. A").toList) =
      buildDict ((findNumbered (("1. A").toList)).map (fun m => (m.1, collapse m.2))) :=
  ⟨by decide, c1_numbered_scan_mapping.1 (("1. A").toList) (by decide)⟩

/-- Claim C2: when the numbered scan yields zero matches on plain text,
parse_document splits on blank lines, collapses and trims each block,
and keys the blocks longer than 20 characters sequentially from 1 in
document order, discarding short blocks without consuming a key. -/
theorem c2_plain_fallback_keys (content : List Char)
    (h : findNumbered content = []) :
    parse_document_text content = specPlainFallback content := by
  have hp : parse_document_text content = fallbackPlainAux (splitOn2NL content) [] 1 := by
    unfold parse_document_text
    rw [h]
  rw [hp, fallbackPlainAux_eq (splitOn2NL content) [] 1 (by intro q hq; cases hq)]
  rfl

/-- Witness for C2 at a concrete numbering-free input with one short
block between two long ones. -/
theorem c2_plain_fallback_keys_witness :
    findNumbered (("this paragraph is longer than twenty characters\n\nshort\n\nanother block over twenty characters long").toList) = [] ∧
    parse_document_text (("this paragraph is longer than twenty characters\n\nshort\n\nanother block over twenty characters long").toList) =
      specPlainFallback (("this paragraph is longer than twenty characters\n\nshort\n\nanother block over twenty characters long").toList) ∧
    specPlainFallback (("this paragraph is longer than twenty characters\n\nshort\n\nanother block over twenty characters long").toList) =
      [(1, ("this paragraph is longer than twenty characters").toList),
       (2, ("another block over twenty characters long").toList)] :=
  ⟨by decide,
   c2_plain_fallback_keys _ (by decide),
   by decide⟩

/-- Claim C3: a repeated paragraph number in the numbered-scan path is
overwritten by the later occurrence (last-write-wins): "1. A\n1. B"
yields exactly the mapping 1 to "B", and in general the dict built after
a later assignment to a key holds that assignment's value. -/
theorem c3_duplicate_last_write_wins :
    parse_document_text (("1. A\n1. B").toList) = [(1, ("B").toList)] ∧
    ∀ (ms : List (Nat × List Char)) (k : Nat) (v : List Char),
      dictGet k (buildDict (ms ++ [(k, v)])) = some v := by
  constructor
  · decide
  · intro ms k v
    rw [buildDict_append_single, dictGet_dictInsert_self]

/-- Counterexample to Claim C4: in "See figure 3. Then stuff" the number
3 sits mid-sentence, not at the start of a line-initial token, yet the
scan treats it as a paragraph start and returns the mapping 3 to
"Then stuff". -/
theorem c4_counterexample_midline_start :
    parse_document_text (("See figure 3. Then stuff").toList) =
      [(3, ("Then stuff").toList)] := by decide

/-- Claim C4 as amended: once a numbered run has begun, it is terminated
only at end of text or at a line break followed by digits, a period and
whitespace, so a mid-sentence number never ends the current run (as
"1. A 2. B\n3. C" shows, where "2." is absorbed into paragraph 1); the
start of a run, however, is not anchored to line beginnings, and the
first recognized number of a region may lie mid-sentence. -/
theorem c4_amended_boundary_needs_newline :
    (∀ s : List Char,
      (lazyContent s).2 = [] ∨ lookaheadNum (lazyContent s).2 = true) ∧
    parse_document_text (("1. A 2. B\n3. C").toList) =
      [(1, ("A 2. B").toList), (3, ("C").toList)] := by
  constructor
  · intro s
    induction s with
    | nil => exact Or.inl rfl
    | cons c rest ih =>
        by_cases h : lookaheadNum rest = true
        · right
          show (lookaheadNum (if lookaheadNum rest then ([c], rest)
            else (c :: (lazyContent rest).1, (lazyContent rest).2)).2) = true
          rw [if_pos h]
          exact h
        · have hstep : (lazyContent (c :: rest)).2 = (lazyContent rest).2 := by
            show (if lookaheadNum rest then ([c], rest)
              else (c :: (lazyContent rest).1, (lazyContent rest).2)).2 = (lazyContent rest).2
            rw [if_neg h]
          rw [hstep]
          exact ih
  · decide

/-- Counterexample to Claim C5: the input "1.  " produces the mapping 1
to the empty string on the numbered-scan path, violating non-emptiness,
and a rich-text fallback paragraph keeps its internal double space,
violating whitespace-collapsedness. -/
theorem c5_counterexample_empty_and_uncollapsed :
    parse_document_text (("1.  ").toList) = [(1, [])] ∧
    parse_document_docx [("aaaaaaaaaa  bbbbbbbbbbbb").toList] =
      [(1, ("aaaaaaaaaa  bbbbbbbbbbbb").toList)] ∧
    collapse (("aaaaaaaaaa  bbbbbbbbbbbb").toList) ≠
      ("aaaaaaaaaa  bbbbbbbbbbbb").toList := by
  refine ⟨by decide, by decide, by decide⟩

/-- Claim C5 as amended: every value produced by the plain-text
parse_document (numbered scan or blank-line fallback) is whitespace
collapsed, i.e. a fixed point of the collapse normaliser, though a
numbered-scan value may be empty; every plain-text fallback value is
longer than 20 characters, hence non-empty; every rich-text fallback
value is longer than 20 characters and is the trim of a source
paragraph, but need not be whitespace-collapsed. -/
theorem c5_amended_value_normalisation :
    (∀ (content : List Char) (k : Nat) (v : List Char),
      (k, v) ∈ parse_document_text content → collapse v = v) ∧
    (∀ (content : List Char) (k : Nat) (v : List Char),
      findNumbered content = [] → (k, v) ∈ parse_document_text content →
      20 < v.length) ∧
    (∀ (paras : List (List Char)) (k : Nat) (v : List Char),
      findNumbered (joinNL paras) = [] → (k, v) ∈ parse_document_docx paras →
      20 < v.length ∧ ∃ p ∈ paras, v = pyStrip p) := by
  refine ⟨?_, ?_, ?_⟩
  · intro content k v hmem
    cases hm : findNumbered content with
    | nil =>
        have hp : parse_document_text content =
            fallbackPlainAux (splitOn2NL content) [] 1 := by
          unfold parse_document_text
          rw [hm]
        rw [hp] at hmem
        rcases mem_fallbackPlainAux _ _ _ hmem with h | ⟨p, hp', hv, h20⟩
        · cases h
        · have hv' : v = normalizeBlock p := hv
          rw [hv', normalizeBlock_eq_collapse]
          exact collapse_collapse p
    | cons m ms =>
        have hp : parse_document_text content =
            buildDict ((m :: ms).map (fun q => (q.1, collapse q.2))) := by
          unfold parse_document_text
          rw [hm]
        rw [hp] at hmem
        obtain ⟨q, hq, hq2⟩ := List.mem_map.mp (mem_buildDict _ hmem)
        injection hq2 with he1 he2
        rw [← he2]
        exact collapse_collapse q.2
  · intro content k v h hmem
    have hp : parse_document_text content =
        fallbackPlainAux (splitOn2NL content) [] 1 := by
      unfold parse_document_text
      rw [h]
    rw [hp] at hmem
    rcases mem_fallbackPlainAux _ _ _ hmem with h' | ⟨p, hp', hv, h20⟩
    · cases h'
    · exact h20
  · intro paras k v h hmem
    have hp : parse_document_docx paras = fallbackDocxAux paras [] 1 := by
      unfold parse_document_docx
      rw [h]
    rw [hp] at hmem
    rcases mem_fallbackDocxAux _ _ _ hmem with h' | ⟨p, hp', hv, h20⟩
    · cases h'
    · exact ⟨h20, p, hp', hv⟩

/-- Witness for the amended C5 at a concrete rich-text paragraph list. -/
theorem c5_amended_value_normalisation_witness :
    20 < (("abcdefghijklmnopqrstuvwxyz").toList).length ∧
    ∃ p ∈ [("abcdefghijklmnopqrstuvwxyz").toList],
      ("abcdefghijklmnopqrstuvwxyz").toList = pyStrip p :=
  c5_amended_value_normalisation.2.2 [("abcdefghijklmnopqrstuvwxyz").toList] 1
    (("abcdefghijklmnopqrstuvwxyz").toList) (by decide) (by decide)

/-- Claim C6: for any remote-call behaviour, every selected item ends up
in the Result Collection with its own outcome: the stripped prompt when
the call succeeds, and the textual error marker when the call fails, so
one item's failure never prevents the remaining items from being
processed. -/
theorem c6_failure_isolated_per_item (paragraphs : List (Nat × List Char))
    (oracle : Nat → List Char → Except (List Char) (List Char))
    (maxP : Option Nat) (num : Nat) (text : List Char)
    (h1 : ((gvpItems paragraphs maxP).map Prod.fst).Nodup)
    (h2 : (num, text) ∈ gvpItems paragraphs maxP) :
    dictGet num (generate_video_prompts paragraphs oracle maxP) =
      some (itemResult (oracle num text)) := by
  unfold generate_video_prompts
  rw [gvpAux_eq_append oracle (gvpItems paragraphs maxP) [] h1
    (by intro q hq; simp), List.nil_append]
  exact dictGet_map_items (fun k t => itemResult (oracle k t)) _ num text h1 h2

/-- Witness for C6: with the call failing on key 2 and succeeding on key
1, the Result Collection holds the real prompt at key 1 and the error
marker string at key 2. -/
theorem c6_failure_isolated_per_item_witness :
    dictGet 1 (generate_video_prompts
      [(1, ("alpha").toList), (2, ("beta").toList)]
      (fun n _ => if n = 2 then Except.error (("boom").toList)
        else Except.ok ((" PROMPT_A ").toList)) none) =
      some (("PROMPT_A").toList) ∧
    dictGet 2 (generate_video_prompts
      [(1, ("alpha").toList), (2, ("beta").toList)]
      (fun n _ => if n = 2 then Except.error (("boom").toList)
        else Except.ok ((" PROMPT_A ").toList)) none) =
      some (("ERROR: boom").toList) :=
  ⟨(c6_failure_isolated_per_item
      [(1, ("alpha").toList), (2, ("beta").toList)]
      (fun n _ => if n = 2 then Except.error (("boom").toList)
        else Except.ok ((" PROMPT_A ").toList)) none 1 (("alpha").toList)
      (by decide) (by decide)).trans (by decide),
   (c6_failure_isolated_per_item
      [(1, ("alpha").toList), (2, ("beta").toList)]
      (fun n _ => if n = 2 then Except.error (("boom").toList)
        else Except.ok ((" PROMPT_A ").toList)) none 2 (("beta").toList)
      (by decide) (by decide)).trans (by decide)⟩

/-- Counterexample to Claim C7: a supplied cap of 0 is falsy in the
truncation test, so the code processes every entry instead of the first
min(0, size) = 0 entries: one paragraph with cap 0 yields one result,
not an empty Result Collection. -/
theorem c7_counterexample_zero_cap :
    generate_video_prompts [(1, ('t' :: []))]
      (fun _ _ => Except.ok ('p' :: [])) (some 0) = [(1, ('p' :: []))] := by
  decide

/-- Claim C7 as amended: the Result Collection never exceeds the
Paragraph Collection in size, and a supplied nonzero cap N selects
exactly the first min(N, size) entries in iteration order (a cap of 0,
being falsy, is ignored and every entry is processed). -/
theorem c7_amended_cap_first_entries :
    (∀ (paragraphs : List (Nat × List Char))
        (oracle : Nat → List Char → Except (List Char) (List Char))
        (maxP : Option Nat),
        (generate_video_prompts paragraphs oracle maxP).length ≤
          paragraphs.length) ∧
    (∀ (paragraphs : List (Nat × List Char))
        (oracle : Nat → List Char → Except (List Char) (List Char)) (n : Nat),
        n ≠ 0 → (paragraphs.map Prod.fst).Nodup →
        (generate_video_prompts paragraphs oracle (some n)).map Prod.fst =
          (paragraphs.take n).map Prod.fst) := by
  constructor
  · intro paragraphs oracle maxP
    have hlen : (gvpItems paragraphs maxP).length ≤ paragraphs.length := by
      cases maxP with
      | none => exact Nat.le_refl _
      | some m =>
          by_cases hm : m = 0
          · simp [gvpItems, hm]
          · rw [show gvpItems paragraphs (some m) = paragraphs.take m from by
              simp [gvpItems, hm], List.length_take]
            exact Nat.min_le_right m paragraphs.length
    have h2 : (generate_video_prompts paragraphs oracle maxP).length ≤
        (gvpItems paragraphs maxP).length := by
      have h := gvpAux_length_le oracle (gvpItems paragraphs maxP) []
      simpa using h
    exact Nat.le_trans h2 hlen
  · intro paragraphs oracle n hn hnodup
    have hitems : gvpItems paragraphs (some n) = paragraphs.take n := by
      simp [gvpItems, hn]
    have hnodup' : ((paragraphs.take n).map Prod.fst).Nodup := by
      rw [List.map_take]
      exact List.Nodup.sublist (List.take_sublist n _) hnodup
    unfold generate_video_prompts
    rw [hitems, gvpAux_eq_append oracle _ [] hnodup' (by intro q hq; simp),
      List.nil_append, List.map_map]
    rfl

/-- Witness for the amended C7: cap 1 on a two-paragraph collection
yields a Result Collection whose only key is the first paragraph's. -/
theorem c7_amended_cap_first_entries_witness :
    (generate_video_prompts
      [(1, ("Dawn breaks over stone towers.").toList),
       (2, ("Soldiers gather firewood.").toList)]
      (fun _ _ => Except.ok (("PROMPT_A").toList)) (some 1)).map Prod.fst =
      [1] :=
  (c7_amended_cap_first_entries.2
    [(1, ("Dawn breaks over stone towers.").toList),
     (2, ("Soldiers gather firewood.").toList)]
    (fun _ _ => Except.ok (("PROMPT_A").toList)) 1
    (by decide) (by decide)).trans (by decide)

/-- Claim C8: both serialisations iterate the Result Collection's keys
in ascending numeric order, not insertion order — the emitted key
sequence is sorted and a permutation of the stored keys, with exactly
one labelled block and one csv row per key — and on the concrete
insertion order [2, 1] the csv rows come out as 1 then 2. -/
theorem c8_serialisations_sorted_keys :
    (∀ (results : List (Nat × List Char)) (ts : List Char),
      save_results_txt results ts =
        txtBanner ts ++ List.flatten ((sortedKeys results).map (txtBlock results)) ∧
      save_results_csv results =
        csvHeader ++ List.flatten ((sortedKeys results).map (csvRow results)) ∧
      List.Sorted (· ≤ ·) (sortedKeys results) ∧
      (sortedKeys results).Perm (results.map Prod.fst) ∧
      ((sortedKeys results).map (txtBlock results)).length = results.length ∧
      ((sortedKeys results).map (csvRow results)).length = results.length) ∧
    save_results_csv [(2, ('b' :: [])), (1, ('a' :: []))] =
      ("Paragraph Number,Video Prompt\r\n1,a\r\n2,b\r\n").toList := by
  constructor
  · intro results ts
    have hlen : (sortedKeys results).length = results.length :=
      ((List.perm_insertionSort _ _).length_eq).trans (List.length_map _ _)
    refine ⟨rfl, rfl, List.sorted_insertionSort _ _, List.perm_insertionSort _ _, ?_, ?_⟩
    · rw [List.length_map]
      exact hlen
    · rw [List.length_map]
      exact hlen
  · decide

/-- Claim C9: with an empty API-key credential, main halts at the
instructional message before any processing: the input file is never
read and neither output file is written, for every possible input,
remote behaviour, cap and timestamp. -/
theorem c9_missing_credential_halts_early
    (load : Except Unit (List (Nat × List Char)))
    (oracle : Nat → List Char → Except (List Char) (List Char))
    (maxP : Option Nat) (ts : List Char) :
    main_run [] load oracle maxP ts = (MainOutcome.missingKey, []) := rfl

/-- Claim C10: on the empty Result Collection both writers still produce
their full (overwriting) file contents: the text report is exactly the
banner with its timestamp and the csv export is exactly the header row
(written without a space after the comma), with no per-paragraph blocks
or rows. -/
theorem c10_empty_results_outputs :
    ∀ ts : List Char,
      save_results_txt [] ts = txtBanner ts ∧
      save_results_csv [] = csvHeader ∧
      csvHeader = ("Paragraph Number,Video Prompt\r\n").toList := by
  intro ts
  refine ⟨?_, ?_, by decide⟩
  · simp [save_results_txt, sortedKeys, List.insertionSort]
  · simp [save_results_csv, sortedKeys, List.insertionSort]
